import Mathlib

/-!
Shallow embedding of the heatmap data pipeline of `hm_final.py`.

The pipeline, for one selected value column, is:
parse the `DATE` column under the fixed format `%d-%m-%y` coercing
failures to missing, drop rows with a missing date, derive the `year`
and the `month_name_short` label, build a pivot table (year rows,
month-label columns) under one of six aggregation functions with
pandas missing-value semantics, sort the year index descending and
keep the first `numYears` rows.  The renderer's center-at-zero policy
for diverging colormaps is embedded as well.
-/

/-- A calendar date as produced by parsing under the fixed format. -/
structure PDate where
  year : Nat
  month : Nat
  day : Nat
deriving DecidableEq

/-- Numeric value of an ASCII digit character, `none` otherwise. -/
def digitVal (c : Char) : Option Nat :=
  if 48 ≤ c.toNat ∧ c.toNat ≤ 57 then some (c.toNat - 48) else none

/-- Left-to-right accumulation of decimal digits; fails on a non-digit. -/
def parseDigitsAux : List Char → Nat → Option Nat
  | [], acc => some acc
  | c :: cs, acc =>
    match digitVal c with
    | some d => parseDigitsAux cs (acc * 10 + d)
    | none => none

/-- A non-empty all-digit character list read as a decimal number. -/
def parseDigits (cs : List Char) : Option Nat :=
  if cs = [] then none else parseDigitsAux cs 0

/-- Split a character list at each hyphen. -/
def splitDashAux : List Char → List Char → List (List Char)
  | [], cur => [cur.reverse]
  | c :: cs, cur =>
    if c = '-' then cur.reverse :: splitDashAux cs []
    else splitDashAux cs (c :: cur)

def splitDash (s : String) : List (List Char) := splitDashAux s.toList []

/-- A day or month field: one or two digits (strptime `%d` / `%m`). -/
def twoDigitField (cs : List Char) : Option Nat :=
  if cs.length = 1 ∨ cs.length = 2 then parseDigits cs else none

/-- A year field: exactly two digits (strptime `%y`). -/
def yearField (cs : List Char) : Option Nat :=
  if cs.length = 2 then parseDigits cs else none

/-- The POSIX `%y` century pivot: 00-68 map to the 2000s, 69-99 to the 1900s. -/
def century (yy : Nat) : Nat := if yy ≤ 68 then 2000 + yy else 1900 + yy

def isLeapYear (y : Nat) : Bool :=
  y % 4 == 0 && (y % 100 != 0 || y % 400 == 0)

def daysInMonth (y m : Nat) : Nat :=
  if m = 2 then (if isLeapYear y then 29 else 28)
  else if m = 4 ∨ m = 6 ∨ m = 9 ∨ m = 11 then 30
  else 31

/-- `pd.to_datetime(col, format=..., errors=...)` on one cell: a string in
day-month-two-digit-year form becomes a calendar date, anything else is
coerced to missing.  Day and month fields are one or two digits, the year
field exactly two; the month must be 1-12 and the day valid for that
month and (pivoted) year. -/
def to_datetime (s : String) : Option PDate :=
  match splitDash s with
  | [df, mf, yf] =>
    match twoDigitField df, twoDigitField mf, yearField yf with
    | some d, some m, some yy =>
      if 1 ≤ m ∧ m ≤ 12 ∧ 1 ≤ d ∧ d ≤ daysInMonth (century yy) m then
        some ⟨century yy, m, d⟩
      else none
    | _, _, _ => none
  | _ => none

def monthAbbr : Nat → String
  | 1 => "Jan"
  | 2 => "Feb"
  | 3 => "Mar"
  | 4 => "Apr"
  | 5 => "May"
  | 6 => "Jun"
  | 7 => "Jul"
  | 8 => "Aug"
  | 9 => "Sep"
  | 10 => "Oct"
  | 11 => "Nov"
  | 12 => "Dec"
  | _ => ""

/-- Zero-padded two-digit rendering of a month number (strftime `%m`). -/
def pad2 (n : Nat) : String := if n < 10 then "0" ++ toString n else toString n

/-- strftime `%m-%b`: zero-padded month number, hyphen, month abbreviation. -/
def month_name_short (d : PDate) : String := pad2 d.month ++ "-" ++ monthAbbr d.month

/-- One input row: the `DATE` cell as text and the selected value column's
cell after `pd.to_numeric(..., errors=...)` coercion (`none` = missing). -/
structure Row where
  date : String
  val : Option ℚ
deriving DecidableEq

/-- `dropna(subset=[DATE])` after the date conversion: keep exactly the
rows whose date parses. -/
def dropna (rows : List Row) : List Row :=
  rows.filter fun r => (to_datetime r.date).isSome

/-- The rows with a parsed date, as (year, month label, value) triples. -/
def parsedRows (rows : List Row) : List (Nat × String × Option ℚ) :=
  rows.filterMap fun r =>
    (to_datetime r.date).map fun d => (d.year, month_name_short d, r.val)

/-- The distinct (year, month label) group keys occurring in the data. -/
def presentKeys (ps : List (Nat × String × Option ℚ)) : List (Nat × String) :=
  (ps.map fun p => (p.1, p.2.1)).dedup

/-- The non-missing values of one (year, month label) bucket; aggregation
skips missing values, as pandas does. -/
def contrib (ps : List (Nat × String × Option ℚ)) (y : Nat) (mo : String) : List ℚ :=
  ps.filterMap fun p => if p.1 = y ∧ p.2.1 = mo then p.2.2 else none

def listMin : List ℚ → Option ℚ
  | [] => none
  | v :: vs =>
    match listMin vs with
    | none => some v
    | some w => some (min v w)

def listMax : List ℚ → Option ℚ
  | [] => none
  | v :: vs =>
    match listMax vs with
    | none => some v
    | some w => some (max v w)

/-- Median of the non-missing values: middle of the sorted list, or the
mean of the two middle elements for an even count; missing when empty. -/
def median (vs : List ℚ) : Option ℚ :=
  let s := List.insertionSort (fun a b : ℚ => a ≤ b) vs
  if s.length = 0 then none
  else if s.length % 2 = 1 then some (s.getD (s.length / 2) 0)
  else some ((s.getD (s.length / 2 - 1) 0 + s.getD (s.length / 2) 0) / 2)

/-- The six aggregation choices of the UI selectbox. -/
inductive Agg
  | Sum | Mean | Median | Count | Max | Min
deriving DecidableEq

/-- A pandas groupby reduction over the non-missing values of one bucket.
Sum of an empty bucket is 0 and Count is the length (never missing);
Mean, Median, Max and Min of an empty bucket are missing. -/
def aggregate : Agg → List ℚ → Option ℚ
  | .Sum, vs => some vs.sum
  | .Mean, vs => if vs = [] then none else some (vs.sum / (vs.length : ℚ))
  | .Median, vs => median vs
  | .Count, vs => some ((vs.length : ℚ))
  | .Max, vs => listMax vs
  | .Min, vs => listMin vs

/-- Cell of the unstacked pivot: the bucket's aggregate when the group key
occurs in the data, missing otherwise. -/
def aggCell (a : Agg) (ps : List (Nat × String × Option ℚ)) (y : Nat) (mo : String) :
    Option ℚ :=
  if (y, mo) ∈ presentKeys ps then aggregate a (contrib ps y mo) else none

/-- Group keys surviving the pivot's `dropna(how=all)` on the aggregated
frame: those whose aggregate is not missing. -/
def liveKeys (a : Agg) (ps : List (Nat × String × Option ℚ)) : List (Nat × String) :=
  (presentKeys ps).filter fun k => (aggregate a (contrib ps k.1 k.2)).isSome

/-- A year-by-month matrix: the column labels and, per year, the row of
cells aligned with the columns. -/
structure Heatmap where
  cols : List String
  rows : List (Nat × List (Option ℚ))
deriving DecidableEq

def sortNat (l : List Nat) : List Nat :=
  List.insertionSort (fun a b => a ≤ b) l

/-- Code-point lexicographic comparison of character lists, the order
Python uses to sort the string group keys. -/
def charListLe : List Char → List Char → Bool
  | [], _ => true
  | _ :: _, [] => false
  | a :: as, b :: bs =>
    if a.toNat < b.toNat then true
    else if a.toNat = b.toNat then charListLe as bs
    else false

def strLe (a b : String) : Bool := charListLe a.toList b.toList

def sortStr (l : List String) : List String :=
  List.insertionSort (fun a b : String => strLe a b = true) l

/-- `pd.pivot_table(df, values=col, index=year, columns=month_name_short,
aggfunc=f)`: group keys are sorted ascending, groups whose aggregate is
missing are dropped, and the matrix is indexed by the surviving years and
month labels with missing cells for absent combinations. -/
def pivot_table (a : Agg) (rows : List Row) : Heatmap :=
  let ps := parsedRows rows
  let ks := liveKeys a ps
  let years := sortNat ((ks.map fun k => k.1).dedup)
  let cols := sortStr ((ks.map fun k => k.2).dedup)
  ⟨cols, years.map fun y => (y, cols.map fun mo => aggCell a ps y mo)⟩

/-- `sort_index(ascending=False)` on the year index. -/
def sort_index_desc (rs : List (Nat × List (Option ℚ))) : List (Nat × List (Option ℚ)) :=
  List.insertionSort (fun a b => b.1 ≤ a.1) rs

/-- `heatmap_data.sort_index(ascending=False).head(n)`. -/
def display_limit (n : Nat) (h : Heatmap) : Heatmap :=
  ⟨h.cols, (sort_index_desc h.rows).take n⟩

/-- Outcome of the data-processing path: the user-visible error or the
matrix handed to the renderer. -/
inductive AppResult
  | err (msg : String)
  | ok (h : Heatmap)
deriving DecidableEq

def noValidDataMsg : String :=
  "After processing, no valid data remains. Check your date and value columns or data quality."

/-- The data-processing path of `run_app` for one selected value column:
convert and drop dates, halt with the error message when nothing remains,
otherwise pivot, sort descending and truncate. -/
def run_app (a : Agg) (numYears : Nat) (rows : List Row) : AppResult :=
  if dropna rows = [] then .err noValidDataMsg
  else .ok (display_limit numYears (pivot_table a (dropna rows)))

/-- Look up the cell of a matrix at a year row and month-label column. -/
def cellAt (h : Heatmap) (y : Nat) (mo : String) : Option ℚ :=
  match h.rows.find? fun r => r.1 == y with
  | none => none
  | some r =>
    match (h.cols.zip r.2).find? fun c => c.1 == mo with
    | none => none
    | some c => c.2

/-- The fixed set of diverging colormaps for which the center-at-zero
checkbox is offered. -/
def cmap_options_diverging : List String := ["coolwarm", "RdBu", "PiYG", "Spectral"]

def center_offered (cmap : String) : Bool := cmap_options_diverging.contains cmap

/-- The plotted values of a matrix, skipping missing cells. -/
def matrixValues (h : Heatmap) : List ℚ :=
  (h.rows.map fun r => r.2.filterMap id).flatten

/-- Default state of the center-at-zero checkbox: checked exactly when the
matrix minimum is at least -1 and the maximum at most 1 (missing-skipping
min and max, as `data_to_plot.min().min()` computes them). -/
def center_default (h : Heatmap) : Bool :=
  match listMin (matrixValues h), listMax (matrixValues h) with
  | some mn, some mx => decide ((-1 : ℚ) ≤ mn) && decide (mx ≤ (1 : ℚ))
  | _, _ => false

/-- The number of rows of a (year, month label) bucket whose value is
non-missing after numeric coercion (the specification's reading of Count). -/
def bucketNonMissingCount (rows : List Row) (y : Nat) (mo : String) : Nat :=
  (rows.filter fun r =>
    (match to_datetime r.date with
     | some d => decide (d.year = y ∧ month_name_short d = mo)
     | none => false) && r.val.isSome).length

/-! ### Helper lemmas -/

theorem charListLe_total : ∀ as bs, charListLe as bs = true ∨ charListLe bs as = true := by
  intro as
  induction as with
  | nil => intro bs; left; rfl
  | cons a as ih =>
    intro bs
    cases bs with
    | nil => right; rfl
    | cons b bs =>
      rcases Nat.lt_trichotomy a.toNat b.toNat with h | h | h
      · left; simp [charListLe, h]
      · rcases ih bs with h2 | h2
        · left; simp [charListLe, h, h2]
        · right; simp [charListLe, h.symm, h2]
      · right; simp [charListLe, h]

theorem charListLe_trans :
    ∀ as bs cs, charListLe as bs = true → charListLe bs cs = true →
      charListLe as cs = true := by
  intro as
  induction as with
  | nil => intro bs cs _ _; rfl
  | cons a as ih =>
    intro bs cs h1 h2
    cases bs with
    | nil => simp [charListLe] at h1
    | cons b bs =>
      cases cs with
      | nil => simp [charListLe] at h2
      | cons c cs =>
        simp only [charListLe] at h1 h2 ⊢
        split_ifs at h1 h2 ⊢ <;>
          first
            | rfl
            | (exact ih bs cs h1 h2)
            | omega

instance : IsTotal String fun a b : String => strLe a b = true :=
  ⟨fun a b => charListLe_total a.toList b.toList⟩

instance : IsTrans String fun a b : String => strLe a b = true :=
  ⟨fun a b c => charListLe_trans a.toList b.toList c.toList⟩

instance : IsTotal (Nat × List (Option ℚ)) fun a b => b.1 ≤ a.1 :=
  ⟨fun a b => Nat.le_total b.1 a.1⟩

instance : IsTrans (Nat × List (Option ℚ)) fun a b => b.1 ≤ a.1 :=
  ⟨fun _ _ _ hab hbc => Nat.le_trans hbc hab⟩

theorem listMin_isSome {l : List ℚ} (h : l ≠ []) : ∃ m, listMin l = some m := by
  cases l with
  | nil => exact absurd rfl h
  | cons v vs =>
    cases h2 : listMin vs with
    | none => exact ⟨v, by rw [listMin, h2]⟩
    | some w => exact ⟨min v w, by rw [listMin, h2]⟩

theorem listMax_isSome {l : List ℚ} (h : l ≠ []) : ∃ m, listMax l = some m := by
  cases l with
  | nil => exact absurd rfl h
  | cons v vs =>
    cases h2 : listMax vs with
    | none => exact ⟨v, by rw [listMax, h2]⟩
    | some w => exact ⟨max v w, by rw [listMax, h2]⟩

theorem listMin_spec {l : List ℚ} {m : ℚ} (h : listMin l = some m) :
    m ∈ l ∧ ∀ v ∈ l, m ≤ v := by
  induction l generalizing m with
  | nil => cases h
  | cons v vs ih =>
    cases hv : listMin vs with
    | none =>
      rw [listMin, hv] at h
      injection h with h
      subst h
      cases vs with
      | nil =>
        refine ⟨List.mem_singleton_self _, ?_⟩
        intro x hx
        simp at hx
        simp [hx]
      | cons w ws =>
        obtain ⟨_, hw⟩ := listMin_isSome (l := w :: ws) (by simp)
        rw [hw] at hv
        cases hv
    | some w =>
      rw [listMin, hv] at h
      injection h with h
      obtain ⟨hwm, hwle⟩ := ih hv
      constructor
      · rcases min_choice v w with hc | hc
        · rw [← h, hc]; exact List.mem_cons_self _ _
        · rw [← h, hc]; exact List.mem_cons_of_mem _ hwm
      · intro x hx
        rcases List.mem_cons.mp hx with rfl | hx
        · rw [← h]; exact min_le_left _ _
        · rw [← h]; exact le_trans (min_le_right _ _) (hwle x hx)

theorem listMax_spec {l : List ℚ} {m : ℚ} (h : listMax l = some m) :
    m ∈ l ∧ ∀ v ∈ l, v ≤ m := by
  induction l generalizing m with
  | nil => cases h
  | cons v vs ih =>
    cases hv : listMax vs with
    | none =>
      rw [listMax, hv] at h
      injection h with h
      subst h
      cases vs with
      | nil =>
        refine ⟨List.mem_singleton_self _, ?_⟩
        intro x hx
        simp at hx
        simp [hx]
      | cons w ws =>
        obtain ⟨_, hw⟩ := listMax_isSome (l := w :: ws) (by simp)
        rw [hw] at hv
        cases hv
    | some w =>
      rw [listMax, hv] at h
      injection h with h
      obtain ⟨hwm, hwle⟩ := ih hv
      constructor
      · rcases max_choice v w with hc | hc
        · rw [← h, hc]; exact List.mem_cons_self _ _
        · rw [← h, hc]; exact List.mem_cons_of_mem _ hwm
      · intro x hx
        rcases List.mem_cons.mp hx with rfl | hx
        · rw [← h]; exact le_max_left _ _
        · rw [← h]; exact le_trans (hwle x hx) (le_max_right _ _)

theorem digitVal_le {c : Char} {v : Nat} (h : digitVal c = some v) : v ≤ 9 := by
  unfold digitVal at h
  split_ifs at h with hc
  injection h with h
  omega

theorem parseDigits_two_le {cs : List Char} {v : Nat} (hlen : cs.length = 2)
    (h : parseDigits cs = some v) : v ≤ 99 := by
  obtain ⟨c1, c2, rfl⟩ : ∃ c1 c2, cs = [c1, c2] := by
    cases cs with
    | nil => simp at hlen
    | cons c1 t =>
      cases t with
      | nil => simp at hlen
      | cons c2 t2 =>
        cases t2 with
        | nil => exact ⟨c1, c2, rfl⟩
        | cons c3 t3 => simp [List.length] at hlen
  rw [parseDigits] at h
  simp only [reduceIte, parseDigitsAux] at h
  cases h1 : digitVal c1 with
  | none => rw [h1] at h; cases h
  | some v1 =>
    rw [h1] at h
    cases h2 : digitVal c2 with
    | none => rw [h2] at h; cases h
    | some v2 =>
      rw [h2] at h
      injection h with h
      have b1 := digitVal_le h1
      have b2 := digitVal_le h2
      omega

theorem yearField_le {cs : List Char} {yy : Nat} (h : yearField cs = some yy) : yy ≤ 99 := by
  unfold yearField at h
  split_ifs at h with hl
  exact parseDigits_two_le hl h

/-- Structure of every successful parse: the month is 1-12, the day is
valid, and the year is the century pivot of a two-digit field. -/
theorem to_datetime_some {s : String} {d : PDate} (h : to_datetime s = some d) :
    ∃ yy, yy ≤ 99 ∧ d.year = century yy ∧ 1 ≤ d.month ∧ d.month ≤ 12 ∧
      1 ≤ d.day ∧ d.day ≤ daysInMonth d.year d.month := by
  unfold to_datetime at h
  split at h
  case h_2 => cases h
  case h_1 df mf yf heq =>
    cases hd : twoDigitField df with
    | none => rw [hd] at h; cases h
    | some dd =>
      cases hm : twoDigitField mf with
      | none => rw [hd, hm] at h; cases h
      | some m =>
        cases hy : yearField yf with
        | none => rw [hd, hm, hy] at h; cases h
        | some yy =>
          rw [hd, hm, hy] at h
          dsimp only at h
          split_ifs at h with hval
          injection h with h
          subst h
          exact ⟨yy, yearField_le hy, rfl, hval.1, hval.2.1, hval.2.2.1, hval.2.2.2⟩

theorem parsedRows_dropna (rows : List Row) : parsedRows (dropna rows) = parsedRows rows := by
  induction rows with
  | nil => rfl
  | cons r t ih =>
    cases hr : to_datetime r.date with
    | none => simp [dropna, parsedRows, List.filter_cons, List.filterMap_cons, hr] at ih ⊢; exact ih
    | some d => simp [dropna, parsedRows, List.filter_cons, List.filterMap_cons, hr] at ih ⊢; exact ih

theorem run_app_ok {a : Agg} {n : Nat} {rows : List Row} {h : Heatmap}
    (hr : run_app a n rows = .ok h) :
    dropna rows ≠ [] ∧ h = display_limit n (pivot_table a (dropna rows)) := by
  unfold run_app at hr
  split_ifs at hr with hk
  cases hr
  exact ⟨hk, rfl⟩

theorem mem_pivot_rows {a : Agg} {rows : List Row} {r : Nat × List (Option ℚ)}
    (hm : r ∈ (pivot_table a rows).rows) :
    r = (r.1, (pivot_table a rows).cols.map fun mo => aggCell a (parsedRows rows) r.1 mo) := by
  simp only [pivot_table, List.mem_map] at hm
  obtain ⟨y, _, rfl⟩ := hm
  rfl

theorem mem_display_rows {n : Nat} {h : Heatmap} {r : Nat × List (Option ℚ)}
    (hm : r ∈ (display_limit n h).rows) : r ∈ h.rows := by
  simp only [display_limit] at hm
  exact (List.perm_insertionSort _ _).mem_iff.mp (List.mem_of_mem_take hm)

theorem zip_map_self (g : String → Option ℚ) (l : List String) :
    l.zip (l.map g) = l.map fun c => (c, g c) := by
  induction l with
  | nil => rfl
  | cons c t ih => simp [ih]

/-- Inversion for a cell of the final matrix: a present cell value is the
aggregate of its bucket, and the bucket's key occurs in the data. -/
theorem cellAt_run_ok {a : Agg} {n : Nat} {rows : List Row} {h : Heatmap} {y : Nat}
    {mo : String} {v : ℚ} (hr : run_app a n rows = .ok h) (hc : cellAt h y mo = some v) :
    (y, mo) ∈ presentKeys (parsedRows rows) ∧
      aggregate a (contrib (parsedRows rows) y mo) = some v := by
  obtain ⟨-, rfl⟩ := run_app_ok hr
  rw [cellAt] at hc
  cases hf : (display_limit n (pivot_table a (dropna rows))).rows.find? fun r => r.1 == y with
  | none => rw [hf] at hc; cases hc
  | some rr =>
    rw [hf] at hc
    have hrm : rr ∈ (display_limit n (pivot_table a (dropna rows))).rows :=
      List.mem_of_find?_eq_some hf
    have hry : rr.1 = y := by have := List.find?_some hf; simpa using this
    have hshape := mem_pivot_rows (mem_display_rows hrm)
    rw [hry] at hshape
    have hcols : (display_limit n (pivot_table a (dropna rows))).cols
        = (pivot_table a (dropna rows)).cols := rfl
    rw [hcols, hshape] at hc
    dsimp only at hc
    rw [zip_map_self] at hc
    cases hg : ((pivot_table a (dropna rows)).cols.map fun c =>
        (c, aggCell a (parsedRows (dropna rows)) y c)).find? fun c => c.1 == mo with
    | none => rw [hg] at hc; cases hc
    | some cp =>
      rw [hg] at hc
      dsimp only at hc
      have hcm := List.mem_of_find?_eq_some hg
      have hcmo : cp.1 = mo := by have := List.find?_some hg; simpa using this
      simp only [List.mem_map] at hcm
      obtain ⟨c0, -, rfl⟩ := hcm
      dsimp only at hcmo hc
      rw [hcmo] at hc
      rw [aggCell] at hc
      rw [parsedRows_dropna] at hc
      split_ifs at hc with hmem
      exact ⟨hmem, hc⟩

theorem mem_parsedRows {rows : List Row} {p : Nat × String × Option ℚ} :
    p ∈ parsedRows rows ↔ ∃ r ∈ rows, ∃ d, to_datetime r.date = some d ∧
      (d.year, month_name_short d, r.val) = p := by
  simp [parsedRows, List.mem_filterMap, Option.map_eq_some']

theorem parsedRows_cons_none {r : Row} {t : List Row} (hr : to_datetime r.date = none) :
    parsedRows (r :: t) = parsedRows t := by
  simp [parsedRows, List.filterMap_cons, hr]

theorem parsedRows_cons_some {r : Row} {t : List Row} {d : PDate}
    (hr : to_datetime r.date = some d) :
    parsedRows (r :: t) = (d.year, month_name_short d, r.val) :: parsedRows t := by
  simp [parsedRows, List.filterMap_cons, hr]

theorem contrib_cons_pos {ps : List (Nat × String × Option ℚ)} {y : Nat} {mo : String}
    (p : Nat × String × Option ℚ) (hk : p.1 = y ∧ p.2.1 = mo) :
    contrib (p :: ps) y mo = p.2.2.toList ++ contrib ps y mo := by
  cases hv : p.2.2 <;> simp [contrib, List.filterMap_cons, hk, hv]

theorem contrib_cons_neg {ps : List (Nat × String × Option ℚ)} {y : Nat} {mo : String}
    (p : Nat × String × Option ℚ) (hk : ¬(p.1 = y ∧ p.2.1 = mo)) :
    contrib (p :: ps) y mo = contrib ps y mo := by
  simp [contrib, List.filterMap_cons, hk]

/-- The bucket of non-missing values has exactly as many entries as there
are source rows falling in the bucket with a non-missing value. -/
theorem contrib_length (rows : List Row) (y : Nat) (mo : String) :
    (contrib (parsedRows rows) y mo).length = bucketNonMissingCount rows y mo := by
  induction rows with
  | nil => rfl
  | cons r t ih =>
    cases hr : to_datetime r.date with
    | none =>
      rw [parsedRows_cons_none hr]
      have hb : bucketNonMissingCount (r :: t) y mo = bucketNonMissingCount t y mo := by
        simp [bucketNonMissingCount, List.filter_cons, hr]
      rw [hb]
      exact ih
    | some d =>
      rw [parsedRows_cons_some hr]
      by_cases hk : d.year = y ∧ month_name_short d = mo
      · rw [contrib_cons_pos _ hk]
        have hb : bucketNonMissingCount (r :: t) y mo =
            r.val.toList.length + bucketNonMissingCount t y mo := by
          cases hv : r.val <;> simp [bucketNonMissingCount, List.filter_cons, hr, hk, hv] <;> omega
        rw [List.length_append, hb, ih]
      · rw [contrib_cons_neg _ hk]
        have hb : bucketNonMissingCount (r :: t) y mo = bucketNonMissingCount t y mo := by
          simp [bucketNonMissingCount, List.filter_cons, hr, hk]
        rw [hb]
        exact ih

/-! ### Claim theorems -/

/-- Claim C1: for input rows (01-01-20, 10), (15-01-20, 20), (01-02-20, 5)
with aggregation Sum and display limit 8, the pipeline produces a matrix
with exactly one row, year 2020, whose cell in column 01-Jan is 30 and
whose cell in column 02-Feb is 5. -/
theorem hm_C1 :
    run_app .Sum 8 [⟨"01-01-20", some 10⟩, ⟨"15-01-20", some 20⟩, ⟨"01-02-20", some 5⟩] =
      .ok ⟨["01-Jan", "02-Feb"], [(2020, [some 30, some 5])]⟩ ∧
    cellAt ⟨["01-Jan", "02-Feb"], [(2020, [some 30, some 5])]⟩ 2020 ("01-Jan") = some 30 ∧
    cellAt ⟨["01-Jan", "02-Feb"], [(2020, [some 30, some 5])]⟩ 2020 ("02-Feb") = some 5 := by
  refine ⟨?_, by decide, by decide⟩
  have e1 : ((10 : ℚ) + (20 + 0)) = 30 := by norm_num
  have e2 : ((5 : ℚ) + 0) = 5 := by norm_num
  calc run_app .Sum 8 [⟨"01-01-20", some 10⟩, ⟨"15-01-20", some 20⟩, ⟨"01-02-20", some 5⟩]
      = .ok ⟨["01-Jan", "02-Feb"],
          [(2020, [some ((10 : ℚ) + (20 + 0)), some ((5 : ℚ) + 0)])]⟩ := rfl
    _ = .ok ⟨["01-Jan", "02-Feb"], [(2020, [some 30, some 5])]⟩ := by rw [e1, e2]

/-- Claim C5: rows whose date fails to parse are removed in full before any
further processing and contribute to no downstream matrix (removing such a
row does not change the pipeline's result), and the parse-and-drop step is
idempotent. -/
theorem hm_C5 (rows l1 l2 : List Row) (r : Row) (a : Agg) (n : Nat) :
    dropna (dropna rows) = dropna rows ∧
    (to_datetime r.date = none → run_app a n (l1 ++ r :: l2) = run_app a n (l1 ++ l2)) := by
  constructor
  · simp [dropna, List.filter_filter]
  · intro hr
    have hd : dropna (l1 ++ r :: l2) = dropna (l1 ++ l2) := by
      simp [dropna, List.filter_append, List.filter_cons, hr]
    rw [run_app, run_app, hd]

theorem hm_C5_witness :
    dropna (dropna [⟨"01-01-20", some 1⟩]) = dropna [⟨"01-01-20", some 1⟩] ∧
    run_app .Sum 4 ([⟨"01-01-20", some 1⟩] ++ ⟨"31-13-99", none⟩ :: []) =
      run_app .Sum 4 ([⟨"01-01-20", some 1⟩] ++ []) :=
  ⟨(hm_C5 [⟨"01-01-20", some 1⟩] [⟨"01-01-20", some 1⟩] [] ⟨"31-13-99", none⟩ .Sum 4).1,
   (hm_C5 [⟨"01-01-20", some 1⟩] [⟨"01-01-20", some 1⟩] [] ⟨"31-13-99", none⟩ .Sum 4).2
     (by decide)⟩

/-- Claim C6: for every matrix and limit N with 2 ≤ N ≤ 8, the display
limiter sorts the year rows descending and keeps at most N of them: the
result is a prefix of the full descending-sorted row list (of length
min N total), that sorted list is a permutation of the matrix rows, every
returned row is a row of the matrix with its cells unchanged, and the
columns are untouched. -/
theorem hm_C6 (n : Nat) (h2 : 2 ≤ n) (h8 : n ≤ 8) (h : Heatmap) :
    (display_limit n h).rows.length ≤ n ∧
    (display_limit n h).rows.length = min n h.rows.length ∧
    (∃ rest, sort_index_desc h.rows = (display_limit n h).rows ++ rest) ∧
    List.Perm (sort_index_desc h.rows) h.rows ∧
    List.Sorted (fun a b => b.1 ≤ a.1) (sort_index_desc h.rows) ∧
    (∀ r ∈ (display_limit n h).rows, r ∈ h.rows) ∧
    (display_limit n h).cols = h.cols := by
  refine ⟨?_, ?_, ?_, ?_, ?_, ?_, rfl⟩
  · exact List.length_take_le n _
  · show (List.take n (sort_index_desc h.rows)).length = _
    rw [List.length_take]
    exact congrArg (n ⊓ ·) ((List.perm_insertionSort _ h.rows).length_eq)
  · exact ⟨(sort_index_desc h.rows).drop n, (List.take_append_drop n _).symm⟩
  · exact List.perm_insertionSort _ _
  · exact List.sorted_insertionSort _ _
  · exact fun r hr => mem_display_rows hr

theorem hm_C6_witness :
    (display_limit 4 ⟨["01-Jan"], [(2020, [some 1]), (2019, [some 2])]⟩).rows.length ≤ 4 ∧
    (display_limit 4 ⟨["01-Jan"], [(2020, [some 1]), (2019, [some 2])]⟩).cols = ["01-Jan"] :=
  ⟨(hm_C6 4 (by decide) (by decide) ⟨["01-Jan"], [(2020, [some 1]), (2019, [some 2])]⟩).1,
   (hm_C6 4 (by decide) (by decide)
     ⟨["01-Jan"], [(2020, [some 1]), (2019, [some 2])]⟩).2.2.2.2.2.2⟩

/-- Claim C7: when every row's date string fails to parse, the pipeline
halts with the user-visible error about no valid data remaining and never
reaches pivoting or rendering. -/
theorem hm_C7 (a : Agg) (n : Nat) (rows : List Row)
    (hall : ∀ r ∈ rows, to_datetime r.date = none) :
    run_app a n rows = .err noValidDataMsg := by
  have hk : dropna rows = [] := by
    rw [dropna, List.filter_eq_nil_iff]
    intro r hr
    simp [hall r hr]
  rw [run_app, if_pos hk]

theorem hm_C7_witness : run_app .Sum 4 [⟨"31-13-99", some 1⟩] = .err noValidDataMsg :=
  hm_C7 .Sum 4 [⟨"31-13-99", some 1⟩] (by decide)

/-- Claim C2 counterexample: the string 04-15-03 does not parse under the
fixed day-month-year format (its month field is 15), so it is coerced to
missing and cannot yield year 2015 and month label 03-Mar. -/
theorem hm_C2_cex : to_datetime ("04-15-03") = none := by decide

/-- Claim C2 (amended): every date string that parses under the fixed
format yields a four-digit calendar year (1969-2068) and a month label
that is the zero-padded two-digit month number, a hyphen, and the
three-letter month abbreviation; the string 15-03-04 (not 04-15-03, which
fails to parse) yields year 2004 and month label 03-Mar. -/
theorem hm_C2_amended :
    (∀ s d, to_datetime s = some d →
      (1969 ≤ d.year ∧ d.year ≤ 2068) ∧
      (1 ≤ d.month ∧ d.month ≤ 12) ∧
      month_name_short d = pad2 d.month ++ "-" ++ monthAbbr d.month ∧
      (pad2 d.month).length = 2 ∧ (monthAbbr d.month).length = 3) ∧
    to_datetime ("15-03-04") = some ⟨2004, 3, 15⟩ ∧
    month_name_short ⟨2004, 3, 15⟩ = "03-Mar" := by
  refine ⟨?_, by decide, by decide⟩
  intro s d h
  obtain ⟨yy, hyy, hyear, hm1, hm12, -, -⟩ := to_datetime_some h
  refine ⟨?_, ⟨hm1, hm12⟩, rfl, ?_, ?_⟩
  · rw [hyear, century]; split_ifs <;> omega
  · interval_cases hm : d.month <;> decide
  · interval_cases hm : d.month <;> decide

theorem hm_C2_witness :
    (1969 ≤ (2004 : Nat) ∧ (2004 : Nat) ≤ 2068) ∧
    (1 ≤ (3 : Nat) ∧ (3 : Nat) ≤ 12) ∧
    month_name_short ⟨2004, 3, 15⟩ = pad2 3 ++ "-" ++ monthAbbr 3 ∧
    (pad2 (3 : Nat)).length = 2 ∧ (monthAbbr (3 : Nat)).length = 3 :=
  hm_C2_amended.1 ("15-03-04") ⟨2004, 3, 15⟩ (by decide)

/-- Claim C10: the two-digit year field is mapped through the strptime
century pivot: a parsed year with last-two-digits 69-99 is 1900 plus that
value, with 00-68 it is 2000 plus that value, and the derived year is
never the literal two-digit value (it is always at least 1900); a valid
date ending in -69 yields 1969 while one ending in -68 yields 2068. -/
theorem hm_C10 :
    (∀ s d, to_datetime s = some d →
      (d.year % 100 ≤ 68 → d.year = 2000 + d.year % 100) ∧
      (69 ≤ d.year % 100 → d.year = 1900 + d.year % 100) ∧
      1900 ≤ d.year) ∧
    to_datetime ("01-01-69") = some ⟨1969, 1, 1⟩ ∧
    to_datetime ("01-01-68") = some ⟨2068, 1, 1⟩ := by
  refine ⟨?_, by decide, by decide⟩
  intro s d h
  obtain ⟨yy, hyy, hyear, -, -, -, -⟩ := to_datetime_some h
  rw [hyear, century]
  split_ifs <;> omega

theorem hm_C10_witness :
    ((1969 : Nat) % 100 ≤ 68 → (1969 : Nat) = 2000 + 1969 % 100) ∧
    (69 ≤ (1969 : Nat) % 100 → (1969 : Nat) = 1900 + 1969 % 100) ∧
    1900 ≤ (1969 : Nat) :=
  hm_C10.1 ("01-01-69") ⟨1969, 1, 1⟩ (by decide)

/-- Claim C3 counterexample: under Count, a (year, month) bucket whose
rows all have missing values — hence zero contributing rows — produces
the cell 0, not a missing cell: a single row with a parseable date and a
missing value yields the matrix cell 0 at (2020, 01-Jan). -/
theorem hm_C3_cex :
    run_app .Count 8 [⟨"01-01-20", none⟩] = .ok ⟨["01-Jan"], [(2020, [some 0])]⟩ ∧
    cellAt ⟨["01-Jan"], [(2020, [some 0])]⟩ 2020 ("01-Jan") = some 0 := by
  exact ⟨by decide, by decide⟩

/-- Claim C3 (amended): a (year, month label) pair with no rows at all in
the filtered data produces a missing cell for every aggregation; for
Mean, Median, Max and Min this extends to buckets whose rows all carry a
missing value (zero contributing rows), while Count and Sum produce 0
there. -/
theorem hm_C3_amended (a : Agg) (n : Nat) (rows : List Row) (h : Heatmap) (y : Nat)
    (mo : String) (hr : run_app a n rows = .ok h) :
    ((∀ r ∈ rows, ∀ d, to_datetime r.date = some d →
        ¬(d.year = y ∧ month_name_short d = mo)) →
      cellAt h y mo = none) ∧
    ((a = .Mean ∨ a = .Median ∨ a = .Max ∨ a = .Min) →
      (∀ r ∈ rows, ∀ d, to_datetime r.date = some d → d.year = y →
        month_name_short d = mo → r.val = none) →
      cellAt h y mo = none) := by
  constructor
  · intro hno
    by_contra hne
    obtain ⟨v, hv⟩ := Option.ne_none_iff_exists'.mp hne
    obtain ⟨hmem, -⟩ := cellAt_run_ok hr hv
    rw [presentKeys, List.mem_dedup] at hmem
    simp only [List.mem_map] at hmem
    obtain ⟨p, hp, hpk⟩ := hmem
    obtain ⟨r2, hr2, d, hd, hpd⟩ := mem_parsedRows.mp hp
    apply hno r2 hr2 d hd
    rw [← hpd] at hpk
    simp only [Prod.mk.injEq] at hpk
    exact hpk
  · intro ha hallnone
    by_contra hne
    obtain ⟨v, hv⟩ := Option.ne_none_iff_exists'.mp hne
    obtain ⟨-, hagg⟩ := cellAt_run_ok hr hv
    have hempty : contrib (parsedRows rows) y mo = [] := by
      rw [contrib, List.filterMap_eq_nil_iff]
      intro p hp
      split_ifs with hk
      · obtain ⟨r2, hr2, d, hd, hpd⟩ := mem_parsedRows.mp hp
        rw [← hpd] at hk
        simp only at hk
        rw [← hpd]
        simp only
        exact hallnone r2 hr2 d hd hk.1 hk.2
      · rfl
    rw [hempty] at hagg
    rcases ha with rfl | rfl | rfl | rfl
    · simp [aggregate] at hagg
    · simp [aggregate, median] at hagg
    · simp [aggregate, listMax] at hagg
    · simp [aggregate, listMin] at hagg

theorem hm_C3_witness :
    cellAt ⟨["01-Jan"], [(2020, [some 1])]⟩ 2021 ("01-Jan") = none := by
  have happ : run_app .Count 8 [⟨"01-01-20", some 1⟩] =
      .ok ⟨["01-Jan"], [(2020, [some 1])]⟩ := by decide
  refine (hm_C3_amended .Count 8 [⟨"01-01-20", some 1⟩] ⟨["01-Jan"], [(2020, [some 1])]⟩
    2021 ("01-Jan") happ).1 ?_
  intro r hr d hd
  simp only [List.mem_singleton] at hr
  subst hr
  rw [(by decide : to_datetime ("01-01-20") = some (⟨2020, 1, 1⟩ : PDate))] at hd
  cases hd
  decide

/-- Claim C4: under Count, every present cell of the final matrix equals
the number of rows of its (year, month label) bucket whose value in the
selected column is non-missing after numeric coercion; missing entries
are never counted. -/
theorem hm_C4 (n : Nat) (rows : List Row) (h : Heatmap) (y : Nat) (mo : String) (v : ℚ)
    (hr : run_app .Count n rows = .ok h) (hc : cellAt h y mo = some v) :
    v = (bucketNonMissingCount rows y mo : ℚ) := by
  obtain ⟨-, hagg⟩ := cellAt_run_ok hr hc
  simp only [aggregate] at hagg
  injection hagg with hagg
  rw [← hagg]
  exact congrArg (fun k : ℕ => (k : ℚ)) (contrib_length rows y mo)

theorem hm_C4_witness :
    (3 : ℚ) = (bucketNonMissingCount [⟨"01-01-20", some 1⟩, ⟨"01-01-20", some 2⟩,
      ⟨"02-01-20", some 3⟩, ⟨"03-01-20", none⟩, ⟨"04-01-20", none⟩] 2020 ("01-Jan") : ℚ) :=
  hm_C4 4 [⟨"01-01-20", some 1⟩, ⟨"01-01-20", some 2⟩, ⟨"02-01-20", some 3⟩,
    ⟨"03-01-20", none⟩, ⟨"04-01-20", none⟩] ⟨["01-Jan"], [(2020, [some 3])]⟩ 2020 ("01-Jan") 3
    (by decide) (by decide)

/-- Claim C8 counterexample: with month labels encountered in the order
02-Feb then 01-Jan, the pivot's columns come out sorted ascending as
01-Jan, 02-Feb — the distinct labels are forced into sorted (here
chronological) order, not kept in encounter order. -/
theorem hm_C8_cex :
    run_app .Count 8 [⟨"01-02-20", some 1⟩, ⟨"01-01-20", some 2⟩] =
      .ok ⟨["01-Jan", "02-Feb"], [(2020, [some 1, some 1])]⟩ ∧
    (["01-Jan", "02-Feb"] : List String) ≠ ["02-Feb", "01-Jan"] := by
  exact ⟨by decide, by decide⟩

/-- Claim C8 (amended): the columns of each produced matrix are exactly
the distinct month labels that occur in the filtered data and whose
bucket aggregate survives for at least one year; they are free of
duplicates and sorted ascending in code-point lexicographic order (which
for these labels is chronological), not in encounter order. -/
theorem hm_C8_amended (a : Agg) (n : Nat) (rows : List Row) (h : Heatmap)
    (hr : run_app a n rows = .ok h) :
    List.Sorted (fun a b : String => strLe a b = true) h.cols ∧
    h.cols.Nodup ∧
    (∀ mo, mo ∈ h.cols ↔ ∃ y, (y, mo) ∈ presentKeys (parsedRows rows) ∧
      (aggregate a (contrib (parsedRows rows) y mo)).isSome = true) := by
  obtain ⟨-, rfl⟩ := run_app_ok hr
  have hcols : (display_limit n (pivot_table a (dropna rows))).cols
      = sortStr (((liveKeys a (parsedRows (dropna rows))).map fun k => k.2).dedup) := rfl
  rw [hcols]
  refine ⟨List.sorted_insertionSort _ _, ?_, ?_⟩
  · exact ((List.perm_insertionSort _ _).nodup_iff).mpr (List.nodup_dedup _)
  · intro mo
    rw [sortStr, (List.perm_insertionSort _ _).mem_iff, List.mem_dedup]
    simp only [List.mem_map]
    constructor
    · rintro ⟨k, hk, rfl⟩
      rw [liveKeys, parsedRows_dropna, List.mem_filter] at hk
      exact ⟨k.1, by simpa using hk.1, hk.2⟩
    · rintro ⟨y, hy, hagg⟩
      refine ⟨(y, mo), ?_, rfl⟩
      rw [liveKeys, parsedRows_dropna, List.mem_filter]
      exact ⟨hy, hagg⟩

theorem hm_C8_witness :
    (⟨["01-Jan", "02-Feb"], [(2020, [some 1, some 1])]⟩ : Heatmap).cols.Nodup :=
  (hm_C8_amended .Count 8 [⟨"01-02-20", some 1⟩, ⟨"01-01-20", some 2⟩]
    ⟨["01-Jan", "02-Feb"], [(2020, [some 1, some 1])]⟩ (by decide)).2.1

/-- Claim C9: the center-at-zero option is offered exactly for the four
diverging colormaps coolwarm, RdBu, PiYG and Spectral, and (for a matrix
with at least one observed value) it defaults to checked exactly when
every observed value lies in the interval from -1 to 1; for values
spanning -2 to 5 it is offered for coolwarm but defaults to unchecked. -/
theorem hm_C9 :
    (∀ cmap : String, center_offered cmap = true ↔
      (cmap = "coolwarm" ∨ cmap = "RdBu" ∨ cmap = "PiYG" ∨ cmap = "Spectral")) ∧
    (∀ h : Heatmap, matrixValues h ≠ [] →
      (center_default h = true ↔ ∀ v ∈ matrixValues h, -1 ≤ v ∧ v ≤ 1)) ∧
    center_offered ("coolwarm") = true ∧
    center_default ⟨["01-Jan"], [(2020, [some (-2), some 5])]⟩ = false := by
  refine ⟨?_, ?_, by decide, by decide⟩
  · intro cmap
    simp [center_offered, cmap_options_diverging]
  · intro h hne
    obtain ⟨mn, hmn⟩ := listMin_isSome hne
    obtain ⟨mx, hmx⟩ := listMax_isSome hne
    rw [center_default, hmn, hmx]
    simp only [Bool.and_eq_true, decide_eq_true_eq]
    constructor
    · rintro ⟨hlo, hhi⟩ v hv
      exact ⟨le_trans hlo ((listMin_spec hmn).2 v hv),
        le_trans ((listMax_spec hmx).2 v hv) hhi⟩
    · intro hall
      exact ⟨(hall mn (listMin_spec hmn).1).1, (hall mx (listMax_spec hmx).1).2⟩

theorem hm_C9_witness :
    center_default ⟨["01-Jan"], [(2020, [some 1])]⟩ = true :=
  (hm_C9.2.1 ⟨["01-Jan"], [(2020, [some 1])]⟩ (by decide)).mpr (by decide)
